import Mathlib

/-!
Verification of the slipstream DNS tunnel codec and stream adapters.

The Go sources are shallowly embedded:
* Go byte slices (`[]byte`) become `List Nat` with every element `< 256`
  where that matters.
* Go strings become `List Char` (all strings involved are ASCII).
* `github.com/miekg/dns` messages become the `Msg` structure below,
  keeping exactly the fields the repository reads or writes.
* Fallible Go functions returning `(T, error)` become `Except String T`.
-/

namespace Slipstream

/-! ### Bit-level utilities used to model Go's `encoding/base32`. -/

/-- The `w`-bit big-endian representation of `n` (most significant bit first). -/
def natToBits : Nat → Nat → List Bool
  | 0, _ => []
  | w + 1, n => natToBits w (n / 2) ++ [n % 2 == 1]

/-- Read a big-endian list of bits back as a number. -/
def bitsToNat (l : List Bool) : Nat :=
  l.foldl (fun a b => 2 * a + (cond b 1 0)) 0

theorem natToBits_length (w n : Nat) : (natToBits w n).length = w := by
  induction w generalizing n with
  | zero => rfl
  | succ w ih => simp [natToBits, ih]

theorem bitsToNat_foldl (a : Nat) (l : List Bool) :
    l.foldl (fun a b => 2 * a + (cond b 1 0)) a =
      a * 2 ^ l.length + bitsToNat l := by
  induction l generalizing a with
  | nil => simp [bitsToNat]
  | cons b t ih =>
    simp only [List.foldl_cons, List.length_cons, bitsToNat]
    rw [ih, ih (2 * 0 + (cond b 1 0))]
    ring

theorem bitsToNat_append (l1 l2 : List Bool) :
    bitsToNat (l1 ++ l2) = bitsToNat l1 * 2 ^ l2.length + bitsToNat l2 := by
  unfold bitsToNat
  rw [List.foldl_append]
  exact bitsToNat_foldl _ l2

theorem bitsToNat_lt (l : List Bool) : bitsToNat l < 2 ^ l.length := by
  induction l using List.reverseRecOn with
  | nil => simp [bitsToNat]
  | append_singleton t b ih =>
    rw [bitsToNat_append]
    simp only [List.length_append, List.length_singleton]
    have hb : bitsToNat [b] < 2 := by cases b <;> simp [bitsToNat]
    have : bitsToNat t * 2 ^ 1 + bitsToNat [b] < (2 ^ t.length) * 2 := by
      simp only [pow_one]
      omega
    calc bitsToNat t * 2 ^ 1 + bitsToNat [b] < 2 ^ t.length * 2 := this
      _ = 2 ^ (t.length + 1) := by rw [pow_succ]

theorem bitsToNat_natToBits (w n : Nat) (h : n < 2 ^ w) :
    bitsToNat (natToBits w n) = n := by
  induction w generalizing n with
  | zero =>
    simp only [pow_zero, Nat.lt_one_iff] at h
    simp [natToBits, bitsToNat, h]
  | succ w ih =>
    simp only [natToBits, bitsToNat_append, natToBits_length]
    have hd : n / 2 < 2 ^ w := by
      rw [pow_succ] at h
      omega
    rw [ih _ hd]
    have hb : bitsToNat [n % 2 == 1] = n % 2 := by
      rcases Nat.mod_two_eq_zero_or_one n with h2 | h2 <;> simp [bitsToNat, h2]
    rw [hb]
    simp only [List.length_singleton, pow_one]
    omega

theorem natToBits_bitsToNat (l : List Bool) :
    natToBits l.length (bitsToNat l) = l := by
  induction l using List.reverseRecOn with
  | nil => rfl
  | append_singleton t b ih =>
    simp only [List.length_append, List.length_singleton, natToBits]
    rw [bitsToNat_append]
    have hb : bitsToNat [b] = cond b 1 0 := by cases b <;> simp [bitsToNat]
    have hdiv : (bitsToNat t * 2 ^ (List.length [b]) + bitsToNat [b]) / 2 = bitsToNat t := by
      simp only [List.length_singleton, pow_one, hb]
      cases b <;> simp only [cond_true, cond_false] <;> omega
    have hmod : ((bitsToNat t * 2 ^ (List.length [b]) + bitsToNat [b]) % 2 == 1) = b := by
      simp only [List.length_singleton, pow_one, hb]
      cases b
      · simp only [cond_false, Nat.add_zero, Nat.mul_mod_left]
        rfl
      · simp only [cond_true, beq_iff_eq]
        omega
    rw [hdiv, hmod, ih]

/-! ### Chunking a list into fixed-size pieces.

Models the Go loops `for len(x) > 0 { take := min k len(x); emit x[:take]; x = x[take:] }`
used in `EncodeSubdomain` (63-char labels) and `CreateResponse` (255-byte TXT strings).
The implementation recurses on an explicit fuel equal to the list length so that it is
structurally recursive and kernel-computable. -/

def chunkGo (k : Nat) : Nat → List α → List (List α)
  | _, [] => []
  | 0, _ :: _ => []
  | fuel + 1, a :: t => (a :: t).take k :: chunkGo k fuel ((a :: t).drop k)

/-- Split `l` into consecutive chunks of size `k` (last chunk possibly shorter). -/
def chunkList (k : Nat) (l : List α) : List (List α) :=
  chunkGo k l.length l

theorem chunkGo_congr (k : Nat) (hk : 0 < k) :
    ∀ (f1 : Nat) (l : List α), l.length ≤ f1 → ∀ f2, l.length ≤ f2 →
      chunkGo k f1 l = chunkGo k f2 l := by
  intro f1
  induction f1 with
  | zero =>
    intro l hl f2 _
    have : l = [] := by cases l <;> simp_all
    subst this
    cases f2 <;> rfl
  | succ g1 ih =>
    intro l hl f2 hl2
    cases l with
    | nil => cases f2 <;> rfl
    | cons a t =>
      cases f2 with
      | zero => simp at hl2
      | succ g2 =>
        simp only [chunkGo]
        congr 1
        apply ih
        · simp only [List.length_drop, List.length_cons]
          simp only [List.length_cons] at hl
          omega
        · simp only [List.length_drop, List.length_cons]
          simp only [List.length_cons] at hl2
          omega

theorem chunkList_nil (k : Nat) : chunkList k ([] : List α) = [] := rfl

theorem chunkList_cons (k : Nat) (hk : 0 < k) (l : List α) (hl : l ≠ []) :
    chunkList k l = l.take k :: chunkList k (l.drop k) := by
  cases l with
  | nil => exact absurd rfl hl
  | cons a t =>
    show chunkGo k (t.length + 1) (a :: t) = _
    simp only [chunkGo]
    congr 1
    apply chunkGo_congr k hk
    · simp only [List.length_drop, List.length_cons]
      omega
    · simp

theorem chunkList_join_aux (k : Nat) (hk : 0 < k) :
    ∀ (n : Nat) (l : List α), l.length ≤ n → (chunkList k l).flatten = l := by
  intro n
  induction n with
  | zero =>
    intro l hl
    have : l = [] := by cases l <;> simp_all
    subst this
    simp [chunkList_nil]
  | succ n ih =>
    intro l hl
    cases l with
    | nil => simp [chunkList_nil]
    | cons a t =>
      rw [chunkList_cons k hk _ (by simp), List.flatten_cons]
      rw [ih ((a :: t).drop k)
        (by simp only [List.length_drop, List.length_cons]; simp only [List.length_cons] at hl; omega)]
      exact List.take_append_drop k (a :: t)

theorem chunkList_join (k : Nat) (hk : 0 < k) (l : List α) :
    (chunkList k l).flatten = l :=
  chunkList_join_aux k hk l.length l le_rfl

theorem chunkList_mem_length_le_aux (k : Nat) (hk : 0 < k) :
    ∀ (n : Nat) (l : List α), l.length ≤ n →
      ∀ c ∈ chunkList k l, c.length ≤ k ∧ c ≠ [] := by
  intro n
  induction n with
  | zero =>
    intro l hl c hc
    have : l = [] := by cases l <;> simp_all
    subst this
    simp [chunkList_nil] at hc
  | succ n ih =>
    intro l hl c hc
    cases l with
    | nil => simp [chunkList_nil] at hc
    | cons a t =>
      rw [chunkList_cons k hk _ (by simp)] at hc
      rcases List.mem_cons.mp hc with h | h
      · subst h
        constructor
        · simp only [List.length_take, List.length_cons]
          omega
        · have hlen : 0 < ((a :: t).take k).length := by
            simp only [List.length_take, List.length_cons]
            omega
          intro hcon
          rw [hcon] at hlen
          simp at hlen
      · exact ih ((a :: t).drop k)
          (by simp only [List.length_drop, List.length_cons]; simp only [List.length_cons] at hl; omega) c h

theorem chunkList_mem_length_le (k : Nat) (hk : 0 < k) (l : List α) :
    ∀ c ∈ chunkList k l, c.length ≤ k ∧ c ≠ [] :=
  chunkList_mem_length_le_aux k hk l.length l le_rfl

theorem chunkList_mem_subset (k : Nat) (hk : 0 < k) (l : List α) :
    ∀ c ∈ chunkList k l, ∀ x ∈ c, x ∈ l := by
  intro c hc x hx
  have := chunkList_join k hk l
  rw [← this]
  exact List.mem_flatten.mpr ⟨c, hc, hx⟩

theorem chunkList_append_left (k : Nat) (hk : 0 < k) (l1 l2 : List α)
    (h : l1.length = k) :
    chunkList k (l1 ++ l2) = l1 :: chunkList k l2 := by
  have hne : l1 ++ l2 ≠ [] := by
    intro hcon
    rcases List.append_eq_nil.mp hcon with ⟨h1, _⟩
    rw [h1] at h
    simp at h
    omega
  rw [chunkList_cons k hk _ hne]
  congr 1
  · rw [← h]
    exact List.take_left l1 l2
  · rw [← h]
    rw [List.drop_left l1 l2]

theorem chunkList_length_all_of_dvd_aux (k : Nat) (hk : 0 < k) :
    ∀ (n : Nat) (l : List α), l.length ≤ n → k ∣ l.length →
      ∀ c ∈ chunkList k l, c.length = k := by
  intro n
  induction n with
  | zero =>
    intro l hl _ c hc
    have : l = [] := by cases l <;> simp_all
    subst this
    simp [chunkList_nil] at hc
  | succ n ih =>
    intro l hl hd c hc
    cases l with
    | nil => simp [chunkList_nil] at hc
    | cons a t =>
      have hk_le : k ≤ (a :: t).length := by
        rcases hd with ⟨m, hm⟩
        rcases Nat.eq_zero_or_pos m with h0 | h0
        · rw [h0] at hm; simp at hm
        · calc k = k * 1 := by ring
            _ ≤ k * m := Nat.mul_le_mul_left k h0
            _ = (a :: t).length := hm.symm
      rw [chunkList_cons k hk _ (by simp)] at hc
      rcases List.mem_cons.mp hc with h | h
      · subst h
        simp only [List.length_take]
        omega
      · have hdvd2 : k ∣ ((a :: t).drop k).length := by
          simp only [List.length_drop]
          exact (Nat.dvd_sub' hd (dvd_refl k))
        exact ih ((a :: t).drop k)
          (by simp only [List.length_drop, List.length_cons]; simp only [List.length_cons] at hl; omega)
          hdvd2 c h

theorem chunkList_length_all_of_dvd (k : Nat) (hk : 0 < k) (l : List α)
    (hd : k ∣ l.length) : ∀ c ∈ chunkList k l, c.length = k :=
  chunkList_length_all_of_dvd_aux k hk l.length l le_rfl hd

theorem chunkList_k_mul_length (k : Nat) (hk : 0 < k) (l : List α)
    (hd : k ∣ l.length) : k * (chunkList k l).length = l.length := by
  conv_rhs => rw [← chunkList_join k hk l]
  rw [List.length_flatten]
  have hall := chunkList_length_all_of_dvd k hk l hd
  have hrep : (chunkList k l).map List.length =
      List.replicate (chunkList k l).length k := by
    apply List.eq_replicate_iff.mpr
    constructor
    · simp
    · intro x hx
      rcases List.mem_map.mp hx with ⟨c, hc, hxc⟩
      rw [← hxc]
      exact hall c hc
  rw [hrep, List.sum_replicate, smul_eq_mul, mul_comm]

/-! ### Go `encoding/base32`: the RFC 4648 standard alphabet with padding disabled
(`base32.StdEncoding.WithPadding(base32.NoPadding)`).

The encoder is modelled as the standard bit-stream description of base32: write all
input bytes as bits (most significant first), zero-pad to a multiple of 5 bits, and
map each 5-bit group to an alphabet character.  The decoder maps characters back to
5-bit groups (failing on a character outside the alphabet, or on an impossible
no-padding length, i.e. length ≡ 1, 3 or 6 mod 8) and keeps the first
`len*5/8` bytes of the resulting bit stream. -/

def base32Alphabet : List Char := "ABCDEFGHIJKLMNOPQRSTUVWXYZ234567".toList

/-- `Base32Encoding.EncodeToString` from the Go standard library. -/
def base32EncodeToString (p : List Nat) : List Char :=
  let bits := (p.map (natToBits 8)).flatten
  let padded := bits ++ List.replicate ((5 - bits.length % 5) % 5) false
  (chunkList 5 padded).map (fun g => base32Alphabet.getD (bitsToNat g) 'A')

/-- The 5-bit value of one base32 character (`none` outside the alphabet). -/
def base32CharVal (c : Char) : Option Nat :=
  if 'A' ≤ c ∧ c ≤ 'Z' then some (c.toNat - 'A'.toNat)
  else if '2' ≤ c ∧ c ≤ '7' then some (c.toNat - '2'.toNat + 26)
  else none

/-- `Base32Encoding.DecodeString` from the Go standard library (no-padding mode). -/
def base32DecodeString (s : List Char) : Except String (List Nat) :=
  match s.mapM base32CharVal with
  | none => Except.error "illegal base32 data"
  | some vals =>
    if s.length % 8 = 1 ∨ s.length % 8 = 3 ∨ s.length % 8 = 6 then
      Except.error "illegal base32 data length"
    else
      Except.ok ((chunkList 8 (((vals.map (natToBits 5)).flatten).take
        (s.length * 5 / 8 * 8))).map bitsToNat)

/-- ASCII lowercasing, the effect of `strings.ToLower` on the ASCII strings
this codec produces. -/
def asciiToLower (c : Char) : Char :=
  if 'A' ≤ c ∧ c ≤ 'Z' then Char.ofNat (c.toNat + 32) else c

/-- ASCII uppercasing, the effect of `strings.ToUpper` on the ASCII strings
this codec consumes. -/
def asciiToUpper (c : Char) : Char :=
  if 'a' ≤ c ∧ c ≤ 'z' then Char.ofNat (c.toNat - 32) else c

theorem alphabet_char_facts :
    ∀ v : Fin 32,
      base32CharVal (base32Alphabet.getD v.val 'A') = some v.val ∧
      asciiToUpper (asciiToLower (base32Alphabet.getD v.val 'A')) =
        base32Alphabet.getD v.val 'A' ∧
      asciiToLower (base32Alphabet.getD v.val 'A') ≠ '.' := by decide

theorem length_flatten_map_natToBits (w : Nat) (p : List Nat) :
    ((p.map (natToBits w)).flatten).length = w * p.length := by
  induction p with
  | nil => simp
  | cons b t ih =>
    simp only [List.map_cons, List.flatten_cons, List.length_append,
      natToBits_length, ih, List.length_cons]
    ring

theorem chunk8_flatten (p : List Nat) (h : ∀ b ∈ p, b < 256) :
    (chunkList 8 ((p.map (natToBits 8)).flatten)).map bitsToNat = p := by
  induction p with
  | nil => rfl
  | cons b t ih =>
    simp only [List.map_cons, List.flatten_cons]
    rw [chunkList_append_left 8 (by norm_num) _ _ (natToBits_length 8 b)]
    simp only [List.map_cons]
    rw [bitsToNat_natToBits 8 b (h b (by simp))]
    rw [ih (fun x hx => h x (by simp [hx]))]

theorem flatten_chunk5 (l : List Bool) (h5 : (5 : Nat) ∣ l.length) :
    ((((chunkList 5 l).map bitsToNat).map (natToBits 5)).flatten) = l := by
  have hall := chunkList_length_all_of_dvd 5 (by norm_num) l h5
  rw [List.map_map]
  have hmap : (chunkList 5 l).map (natToBits 5 ∘ bitsToNat) =
      (chunkList 5 l).map id := by
    rw [List.map_eq_map_iff]
    intro c hc
    have hlen := hall c hc
    have hnb := natToBits_bitsToNat c
    rw [hlen] at hnb
    simpa using hnb
  rw [hmap, List.map_id]
  exact chunkList_join 5 (by norm_num) l

theorem mapM_encChar (chunks : List (List Bool)) (h : ∀ c ∈ chunks, bitsToNat c < 32) :
    (chunks.map (fun g => base32Alphabet.getD (bitsToNat g) 'A')).mapM base32CharVal
      = some (chunks.map bitsToNat) := by
  induction chunks with
  | nil => rfl
  | cons c t ih =>
    simp only [List.map_cons, List.mapM_cons]
    rw [(alphabet_char_facts ⟨bitsToNat c, h c (by simp)⟩).1]
    rw [ih (fun x hx => h x (by simp [hx]))]
    rfl

theorem base32_roundtrip (p : List Nat) (h : ∀ b ∈ p, b < 256) :
    base32DecodeString (base32EncodeToString p) = Except.ok p := by
  have hblen : ((p.map (natToBits 8)).flatten).length = 8 * p.length :=
    length_flatten_map_natToBits 8 p
  set bits := (p.map (natToBits 8)).flatten with hbits
  set kpad := (5 - bits.length % 5) % 5 with hkpad
  set padded := bits ++ List.replicate kpad false with hpadded
  have hplen : padded.length = 8 * p.length + kpad := by
    rw [hpadded, List.length_append, List.length_replicate, hblen]
  have hkle : kpad ≤ 4 := by rw [hkpad]; omega
  have h5 : (5 : Nat) ∣ padded.length := by
    rw [hplen, hkpad, hblen]
    omega
  have henc : base32EncodeToString p =
      (chunkList 5 padded).map (fun g => base32Alphabet.getD (bitsToNat g) 'A') := rfl
  have hlen5 : 5 * (chunkList 5 padded).length = padded.length :=
    chunkList_k_mul_length 5 (by norm_num) padded h5
  have hvals : (base32EncodeToString p).mapM base32CharVal =
      some ((chunkList 5 padded).map bitsToNat) := by
    rw [henc]
    apply mapM_encChar
    intro c hc
    have hle := (chunkList_mem_length_le 5 (by norm_num) padded c hc).1
    calc bitsToNat c < 2 ^ c.length := bitsToNat_lt c
      _ ≤ 2 ^ 5 := Nat.pow_le_pow_right (by norm_num) hle
  have hslen : (base32EncodeToString p).length = (chunkList 5 padded).length := by
    rw [henc, List.length_map]
  have hmod : ¬ ((base32EncodeToString p).length % 8 = 1 ∨
      (base32EncodeToString p).length % 8 = 3 ∨
      (base32EncodeToString p).length % 8 = 6) := by
    rw [hslen]
    have := hplen
    omega
  have htakelen : (base32EncodeToString p).length * 5 / 8 * 8 = 8 * p.length := by
    rw [hslen]
    omega
  simp only [base32DecodeString, hvals]
  rw [if_neg hmod, htakelen]
  rw [flatten_chunk5 padded h5]
  have htake : padded.take (8 * p.length) = bits := by
    rw [hpadded, ← hblen]
    exact List.take_left bits _
  rw [htake]
  rw [hbits, chunk8_flatten p h]

/-! ### Subdomain codec (`pkg/dns/subdomain.go`: `EncodeSubdomain`, `DecodeSubdomain`). -/

/-- `MaxLabelLength` (63 bytes), maximum length of a DNS label. -/
def MaxLabelLength : Nat := 63

/-- `MaxDomainLength` (253 bytes), maximum length of a full DNS domain name. -/
def MaxDomainLength : Nat := 253

/-- `strings.Join(labels, ".")`. -/
def joinDots : List (List Char) → List Char
  | [] => []
  | [x] => x
  | x :: y :: t => x ++ '.' :: joinDots (y :: t)

/-- `EncodeSubdomain`: base32-encode the data, lowercase it, split it into
DNS labels of at most 63 characters, and join the labels with dots.
The empty payload encodes to the empty string. -/
def EncodeSubdomain (data : List Nat) : List Char :=
  if data = [] then []
  else joinDots (chunkList MaxLabelLength
    ((base32EncodeToString data).map asciiToLower))

/-- The label list built inside `EncodeSubdomain` (zero labels for the
empty payload). -/
def subdomainLabels (data : List Nat) : List (List Char) :=
  if data = [] then []
  else chunkList MaxLabelLength ((base32EncodeToString data).map asciiToLower)

/-- `DecodeSubdomain`: remove the dots, uppercase, base32-decode; a base32
failure is wrapped in a `failed to decode base32` error. -/
def DecodeSubdomain (subdomain : List Char) : Except String (List Nat) :=
  match base32DecodeString
      ((subdomain.filter (fun c => c ≠ '.')).map asciiToUpper) with
  | Except.error e => Except.error ("failed to decode base32: " ++ e)
  | Except.ok decoded => Except.ok decoded

theorem mem_encodeToString (p : List Nat) (c : Char)
    (hc : c ∈ base32EncodeToString p) :
    ∃ v : Fin 32, c = base32Alphabet.getD v.val 'A' := by
  have henc : base32EncodeToString p =
      (chunkList 5 (((p.map (natToBits 8)).flatten) ++
        List.replicate ((5 - ((p.map (natToBits 8)).flatten).length % 5) % 5) false)).map
        (fun g => base32Alphabet.getD (bitsToNat g) 'A') := rfl
  rw [henc] at hc
  rcases List.mem_map.mp hc with ⟨g, hg, hgc⟩
  have hle := (chunkList_mem_length_le 5 (by norm_num) _ g hg).1
  have hlt : bitsToNat g < 32 := by
    calc bitsToNat g < 2 ^ g.length := bitsToNat_lt g
      _ ≤ 2 ^ 5 := Nat.pow_le_pow_right (by norm_num) hle
  exact ⟨⟨bitsToNat g, hlt⟩, hgc.symm⟩

theorem lower_encode_ne_dot (p : List Nat) (x : Char)
    (hx : x ∈ (base32EncodeToString p).map asciiToLower) : x ≠ '.' := by
  rcases List.mem_map.mp hx with ⟨e, he, hex⟩
  rcases mem_encodeToString p e he with ⟨v, hv⟩
  rw [← hex, hv]
  exact (alphabet_char_facts v).2.2

theorem upper_lower_encode (p : List Nat) :
    ((base32EncodeToString p).map asciiToLower).map asciiToUpper =
      base32EncodeToString p := by
  rw [List.map_map]
  have : (base32EncodeToString p).map (asciiToUpper ∘ asciiToLower) =
      (base32EncodeToString p).map id := by
    rw [List.map_eq_map_iff]
    intro e he
    rcases mem_encodeToString p e he with ⟨v, hv⟩
    rw [hv]
    simpa using (alphabet_char_facts v).2.1
  rw [this, List.map_id]

theorem filter_joinDots (chunks : List (List Char))
    (h : ∀ c ∈ chunks, ∀ x ∈ c, x ≠ '.') :
    (joinDots chunks).filter (fun c => c ≠ '.') = chunks.flatten := by
  induction chunks with
  | nil => rfl
  | cons c t ih =>
    cases t with
    | nil =>
      simp only [joinDots, List.flatten_cons, List.flatten_nil, List.append_nil]
      apply List.filter_eq_self.mpr
      intro a ha
      simpa using h c (by simp) a ha
    | cons d t2 =>
      simp only [joinDots, List.flatten_cons, List.filter_append] at *
      have hc : c.filter (fun x => x ≠ '.') = c := by
        apply List.filter_eq_self.mpr
        intro a ha
        simpa using h c (by simp) a ha
      have hdot : ('.' :: joinDots (d :: t2)).filter (fun x => x ≠ '.') =
          (joinDots (d :: t2)).filter (fun x => x ≠ '.') := by
        simp
      rw [hc, hdot]
      have ht : ∀ cc ∈ d :: t2, ∀ x ∈ cc, x ≠ '.' :=
        fun cc hcc x hxc => h cc (by simp [hcc]) x hxc
      rw [ih ht]

theorem joinDots_ne_nil (chunks : List (List Char)) (h0 : chunks ≠ [])
    (h : ∀ c ∈ chunks, c ≠ []) : joinDots chunks ≠ [] := by
  cases chunks with
  | nil => exact absurd rfl h0
  | cons c t =>
    cases t with
    | nil => exact h c (by simp)
    | cons d t2 =>
      simp only [joinDots]
      intro hcon
      rcases List.append_eq_nil.mp hcon with ⟨_, h2⟩
      simp at h2

theorem base32EncodeToString_ne_nil (p : List Nat) (hp : p ≠ []) :
    base32EncodeToString p ≠ [] := by
  have henc : base32EncodeToString p =
      (chunkList 5 (((p.map (natToBits 8)).flatten) ++
        List.replicate ((5 - ((p.map (natToBits 8)).flatten).length % 5) % 5) false)).map
        (fun g => base32Alphabet.getD (bitsToNat g) 'A') := rfl
  have hlen : 0 < ((p.map (natToBits 8)).flatten).length := by
    rw [length_flatten_map_natToBits]
    cases p with
    | nil => exact absurd rfl hp
    | cons b t => simp only [List.length_cons]; omega
  have hpadded : ((p.map (natToBits 8)).flatten) ++
      List.replicate ((5 - ((p.map (natToBits 8)).flatten).length % 5) % 5) false ≠ [] := by
    intro hcon
    rcases List.append_eq_nil.mp hcon with ⟨h1, _⟩
    rw [h1] at hlen
    simp at hlen
  rw [henc, chunkList_cons 5 (by norm_num) _ hpadded]
  simp

theorem EncodeSubdomain_ne_nil (p : List Nat) (hp : p ≠ []) :
    EncodeSubdomain p ≠ [] := by
  unfold EncodeSubdomain
  rw [if_neg hp]
  apply joinDots_ne_nil
  · have hne : (base32EncodeToString p).map asciiToLower ≠ [] := by
      intro hcon
      exact base32EncodeToString_ne_nil p hp (List.map_eq_nil_iff.mp hcon)
    rw [chunkList_cons MaxLabelLength (by decide) _ hne]
    simp
  · intro c hc
    exact (chunkList_mem_length_le MaxLabelLength (by decide) _ c hc).2

theorem decode_encode_subdomain (p : List Nat) (h : ∀ b ∈ p, b < 256) :
    DecodeSubdomain (EncodeSubdomain p) = Except.ok p := by
  by_cases hp : p = []
  · subst hp
    rfl
  · unfold EncodeSubdomain DecodeSubdomain
    rw [if_neg hp]
    have hdots : ∀ c ∈ chunkList MaxLabelLength ((base32EncodeToString p).map asciiToLower),
        ∀ x ∈ c, x ≠ '.' := by
      intro c hc x hxc
      exact lower_encode_ne_dot p x
        (chunkList_mem_subset MaxLabelLength (by decide) _ c hc x hxc)
    rw [filter_joinDots _ hdots]
    rw [chunkList_join MaxLabelLength (by decide)]
    rw [upper_lower_encode p]
    rw [base32_roundtrip p h]

/-! ### FQDN helpers (`CreateFQDN`, `ExtractSubdomain`) and
`CalculateMaxPayloadSize`. -/

/-- `strings.HasSuffix(l, s)`. -/
def hasSuffix (l s : List Char) : Bool :=
  if s.length ≤ l.length then l.drop (l.length - s.length) == s else false

/-- `strings.TrimSuffix(l, s)`: drop one trailing occurrence of `s`. -/
def trimSuffix (l s : List Char) : List Char :=
  if hasSuffix l s then l.take (l.length - s.length) else l

/-- `CreateFQDN`: `domain + "."` for an empty subdomain, else
`subdomain + "." + domain + "."`. -/
def CreateFQDN (subdomain domain : List Char) : List Char :=
  if subdomain = [] then domain ++ ['.']
  else subdomain ++ '.' :: (domain ++ ['.'])

/-- `ExtractSubdomain`: trim trailing dots, require the FQDN to end in
`"." + domain` (or equal the domain), and return what precedes it. -/
def ExtractSubdomain (fqdn domain : List Char) : Except String (List Char) :=
  let f := trimSuffix fqdn ['.']
  let d := trimSuffix domain ['.']
  if ¬ (hasSuffix f ('.' :: d) = true) ∧ f ≠ d then
    Except.error "FQDN does not match domain"
  else if f = d then Except.ok []
  else Except.ok (trimSuffix f ('.' :: d))

/-- `CalculateMaxPayloadSize`: `(253 - domainLen - 2) * 5 / 8` with Go's
truncating (toward-zero) signed integer division. -/
def CalculateMaxPayloadSize (domainLen : Int) : Int :=
  let availableLen : Int := (MaxDomainLength : Int) - domainLen - 2
  let maxBase32Chars := availableLen
  Int.tdiv (maxBase32Chars * 5) 8

theorem hasSuffix_append (x s : List Char) : hasSuffix (x ++ s) s = true := by
  unfold hasSuffix
  rw [if_pos (by simp)]
  have hlen : (x ++ s).length - s.length = x.length := by simp
  rw [hlen, List.drop_left x s]
  exact beq_self_eq_true s

theorem trimSuffix_append (x s : List Char) : trimSuffix (x ++ s) s = x := by
  unfold trimSuffix
  rw [if_pos (hasSuffix_append x s)]
  have hlen : (x ++ s).length - s.length = x.length := by simp
  rw [hlen, List.take_left x s]

theorem trimSuffix_of_not_hasSuffix (l s : List Char) (h : hasSuffix l s = false) :
    trimSuffix l s = l := by
  unfold trimSuffix
  rw [h]
  simp

/-! ### DNS message model (`github.com/miekg/dns`).

Only the parts of a `dns.Msg` this repository reads or writes are kept:
the response code, the question section, the answer section, the extra
(EDNS) section and the recursion-desired and response flags.  Resource
records are restricted to the two kinds the code creates or inspects:
TXT records and the OPT pseudo-record.  (The random transaction id set by
`SetQuestion` and copied by `SetReply` carries no payload information and
is not modelled.) -/

/-- `dns.TypeTXT`. -/
def TypeTXT : Nat := 16

/-- `dns.TypeOPT`. -/
def TypeOPT : Nat := 41

/-- `dns.ClassINET`. -/
def ClassINET : Nat := 1

/-- `dns.RcodeSuccess`. -/
def RcodeSuccess : Nat := 0

/-- `dns.RcodeServerFailure`. -/
def RcodeServerFailure : Nat := 2

/-- `dns.RcodeNameError` (NXDOMAIN). -/
def RcodeNameError : Nat := 3

/-- `DefaultTTL` (60 seconds). -/
def DefaultTTL : Nat := 60

/-- `EDNSBufferSize` (1232 bytes). -/
def EDNSBufferSize : Nat := 1232

/-- One entry of the question section. -/
structure Question where
  name : List Char
  qtype : Nat
  qclass : Nat
deriving DecidableEq

/-- A resource record: a TXT record (name, TTL, class, string list — each
string a byte sequence) or an EDNS OPT pseudo-record with its advertised
UDP buffer size. -/
inductive RR where
  | txt (name : List Char) (ttl : Nat) (cls : Nat) (strings : List (List Nat))
  | opt (udpSize : Nat)
deriving DecidableEq

/-- The modelled `dns.Msg`. -/
structure Msg where
  rcode : Nat
  response : Bool
  recursionDesired : Bool
  question : List Question
  answer : List RR
  extra : List RR
deriving DecidableEq

/-- `msg.SetQuestion(name, t)`: a single question of class INET and
recursion desired. -/
def setQuestion (name : List Char) (t : Nat) : Msg :=
  { rcode := RcodeSuccess
    response := false
    recursionDesired := true
    question := [⟨name, t, ClassINET⟩]
    answer := []
    extra := [] }

/-- `msg.SetReply(request)`: a success-coded response echoing the first
question of the request when it has one. -/
def setReply (request : Msg) : Msg :=
  { rcode := RcodeSuccess
    response := true
    recursionDesired := request.recursionDesired
    question := request.question.take 1
    answer := []
    extra := [] }

/-- `msg.IsEdns0()`: the first OPT pseudo-record in the extra section. -/
def isEdns0 (m : Msg) : Option RR :=
  m.extra.find? (fun rr => match rr with | RR.opt _ => true | _ => false)

/-! ### Packet building and parsing (`pkg/dns/packet.go`). -/

/-- `CreateQuery`: a TXT question named `CreateFQDN(EncodeSubdomain(data), domain)`,
recursion desired, with one EDNS OPT record advertising `EDNSBufferSize`.
(The Go function's error result is always `nil`, so it is modelled as total.) -/
def CreateQuery (data : List Nat) (domain : List Char) : Msg :=
  let base := setQuestion (CreateFQDN (EncodeSubdomain data) domain) TypeTXT
  { base with extra := base.extra ++ [RR.opt EDNSBufferSize] }

/-- `ParseQueryData`: require exactly one TXT question, extract the
subdomain relative to `domain`, and decode it (empty subdomain means
empty payload). -/
def ParseQueryData (msg : Msg) (domain : List Char) : Except String (List Nat) :=
  if msg.question.length ≠ 1 then
    Except.error "expected exactly 1 question"
  else
    match msg.question with
    | [] => Except.error "expected exactly 1 question"
    | q :: _ =>
      if q.qtype ≠ TypeTXT then Except.error "expected TXT query"
      else
        match ExtractSubdomain q.name domain with
        | Except.error e => Except.error ("failed to extract subdomain: " ++ e)
        | Except.ok subdomain =>
          if subdomain = [] then Except.ok []
          else
            match DecodeSubdomain subdomain with
            | Except.error e => Except.error ("failed to decode subdomain: " ++ e)
            | Except.ok data => Except.ok data

/-- `CreateResponse`: NXDOMAIN with no answers for an empty payload;
otherwise a success reply with one TXT record named after the query's
first question holding the payload split into 255-byte strings, copying
the query's EDNS record if present.  Reading `query.Question[0]` with an
empty question section panics in Go, modelled as `none`. -/
def CreateResponse (query : Msg) (data : List Nat) : Option Msg :=
  let msg := setReply query
  if data = [] then some { msg with rcode := RcodeNameError }
  else
    match query.question with
    | [] => none
    | q :: _ =>
      let txt := RR.txt q.name DefaultTTL ClassINET (chunkList 255 data)
      let withAnswer := { msg with answer := msg.answer ++ [txt] }
      some (match isEdns0 query with
        | some opt => { withAnswer with extra := withAnswer.extra ++ [opt] }
        | none => withAnswer)

/-- `RcodeToString` from `github.com/miekg/dns` for the codes in scope;
a code missing from the Go map yields the empty string. -/
def rcodeToString (rcode : Nat) : List Char :=
  if rcode = 0 then "NOERROR".toList
  else if rcode = 1 then "FORMERR".toList
  else if rcode = 2 then "SERVFAIL".toList
  else if rcode = 3 then "NXDOMAIN".toList
  else if rcode = 4 then "NOTIMP".toList
  else if rcode = 5 then "REFUSED".toList
  else []

/-- The byte concatenation loop of `ParseResponseData`: for every TXT
answer record, append the bytes of each of its strings in order. -/
def collectTXT : List RR → List Nat
  | [] => []
  | RR.txt _ _ _ strings :: rest => strings.flatten ++ collectTXT rest
  | RR.opt _ :: rest => collectTXT rest

/-- `ParseResponseData`: NXDOMAIN is the empty payload; any other
non-success code is an error naming the code; on success the TXT record
strings are concatenated in order. -/
def ParseResponseData (msg : Msg) : Except String (List Nat) :=
  if msg.rcode = RcodeNameError then Except.ok []
  else if msg.rcode ≠ RcodeSuccess then
    Except.error (("DNS response error: ".toList ++ rcodeToString msg.rcode).asString)
  else Except.ok (collectTXT msg.answer)

/-! ### Stream adapters (`pkg/transport/client.go`, `pkg/transport/server.go`).

`dnsStream.Read` and `serverDNSStream.Read` perform one substrate read into a
4096-byte buffer, unpack those bytes as one DNS message, parse it, and copy
the resulting payload into the caller's buffer with `copy(p, data)`.  The
substrate stream is modelled as the list of byte chunks its successive reads
return, and the wire-format `Unpack` of the external `miekg/dns` library is a
function parameter.  The adapter structs hold no fields besides the substrate
handle and the domain — in particular no carry-over buffer — so the whole
adapter state is the list of substrate chunks not yet consumed, returned as
the second component.  The result's first component is the copied bytes
together with the returned count `copy(p, data) = min (len p) (len data)`. -/

/-- The body of `dnsStream.Read` (client) applied to the bytes `c` one
substrate read returned: `Unpack`, `ParseResponseData`, then `copy` into a
caller buffer of length `plen`. -/
def dnsStreamParse (unpack : List Nat → Option Msg) (plen : Nat)
    (c : List Nat) : Except String (List Nat × Nat) :=
  match unpack (c.take 4096) with
  | none => Except.error "failed to parse DNS response"
  | some msg =>
    match ParseResponseData msg with
    | Except.error e =>
      Except.error ("failed to extract data from DNS response: " ++ e)
    | Except.ok data => Except.ok (data.take plen, min plen data.length)

/-- `dnsStream.Read` (client) as a transition on the substrate: it consumes
the one chunk the single `ds.stream.Read(buf)` call yields (blocking on an
empty substrate, modelled as an EOF error) and the adapter's state afterwards
is the untouched tail. -/
def dnsStreamRead (unpack : List Nat → Option Msg) (plen : Nat)
    (chunks : List (List Nat)) :
    Except String (List Nat × Nat) × List (List Nat) :=
  match chunks with
  | [] => (Except.error "EOF", [])
  | c :: rest => (dnsStreamParse unpack plen c, rest)

/-- The body of `serverDNSStream.Read` (server) applied to the bytes of one
substrate read: `Unpack`, `ParseQueryData`, then `copy`. -/
def serverDNSStreamParse (unpack : List Nat → Option Msg) (domain : List Char)
    (plen : Nat) (c : List Nat) : Except String (List Nat × Nat) :=
  match unpack (c.take 4096) with
  | none => Except.error "failed to parse DNS query"
  | some msg =>
    match ParseQueryData msg domain with
    | Except.error e =>
      Except.error ("failed to extract data from DNS query: " ++ e)
    | Except.ok data => Except.ok (data.take plen, min plen data.length)

/-- `serverDNSStream.Read` (server) as a transition on the substrate. -/
def serverDNSStreamRead (unpack : List Nat → Option Msg) (domain : List Char)
    (plen : Nat) (chunks : List (List Nat)) :
    Except String (List Nat × Nat) × List (List Nat) :=
  match chunks with
  | [] => (Except.error "EOF", [])
  | c :: rest => (serverDNSStreamParse unpack domain plen c, rest)

/-- The dummy query `serverDNSStream.Write` responds to:
`SetQuestion(CreateFQDN("", domain), TypeTXT)`. -/
def serverDummyQuery (domain : List Char) : Msg :=
  setQuestion (CreateFQDN [] domain) TypeTXT

/-! ### Bidirectional relay (`pkg/proxy/proxy.go`). -/

/-- The error value an `io.Copy` direction can deliver on the completion
channel; `Option IOErrKind` below uses `none` for a nil error. -/
inductive IOErrKind where
  | eof
  | other (msg : String)
deriving DecidableEq

/-- The error-combining logic of `BiDirectionalCopy` applied to the two copy
results received from `errChan`: return the first result that is neither nil
nor `io.EOF`, else nil. -/
def BiDirectionalCopy (err1 err2 : Option IOErrKind) : Option IOErrKind :=
  if err1 ≠ none ∧ err1 ≠ some IOErrKind.eof then err1
  else if err2 ≠ none ∧ err2 ≠ some IOErrKind.eof then err2
  else none

/-- `BiDirectionalCopy` performs two blocking channel receives before it
returns: applied to the list of results delivered so far, it produces a value
only once both copy directions have delivered theirs. -/
def biDirectionalCopyAwait (delivered : List (Option IOErrKind)) :
    Option (Option IOErrKind) :=
  match delivered with
  | e1 :: e2 :: _ => some (BiDirectionalCopy e1 e2)
  | _ => none

/-- A copy direction terminated gracefully: nil error or end-of-input. -/
def gracefulCopyResult (e : Option IOErrKind) : Prop :=
  e = none ∨ e = some IOErrKind.eof

instance (e : Option IOErrKind) : Decidable (gracefulCopyResult e) := by
  unfold gracefulCopyResult
  infer_instance

/-! ### Round-trip lemmas for the packet layer. -/

theorem ExtractSubdomain_CreateFQDN (sub domain : List Char)
    (hdom : hasSuffix domain ['.'] = false) :
    ExtractSubdomain (CreateFQDN sub domain) domain = Except.ok sub := by
  by_cases hsub : sub = []
  · subst hsub
    unfold CreateFQDN ExtractSubdomain
    rw [if_pos rfl]
    rw [trimSuffix_append domain ['.'], trimSuffix_of_not_hasSuffix domain ['.'] hdom]
    rw [if_neg (by intro hcon; exact hcon.2 rfl)]
    rw [if_pos rfl]
  · unfold CreateFQDN ExtractSubdomain
    rw [if_neg hsub]
    have hsplit : sub ++ '.' :: (domain ++ ['.']) = (sub ++ '.' :: domain) ++ ['.'] := by
      simp
    rw [hsplit, trimSuffix_append (sub ++ '.' :: domain) ['.'],
      trimSuffix_of_not_hasSuffix domain ['.'] hdom]
    have hsfx : hasSuffix (sub ++ '.' :: domain) ('.' :: domain) = true :=
      hasSuffix_append sub ('.' :: domain)
    have hne : sub ++ '.' :: domain ≠ domain := by
      intro hcon
      have := congrArg List.length hcon
      simp at this
      omega
    rw [if_neg (by intro hcon; exact hcon.1 hsfx)]
    rw [if_neg hne]
    rw [trimSuffix_append sub ('.' :: domain)]

theorem parse_create_query (p : List Nat) (domain : List Char)
    (hbytes : ∀ b ∈ p, b < 256) (hdom : hasSuffix domain ['.'] = false) :
    ParseQueryData (CreateQuery p domain) domain = Except.ok p := by
  have hq : (CreateQuery p domain).question =
      [⟨CreateFQDN (EncodeSubdomain p) domain, TypeTXT, ClassINET⟩] := rfl
  unfold ParseQueryData
  rw [hq]
  rw [if_neg (by simp)]
  simp only
  rw [if_neg (by simp)]
  rw [ExtractSubdomain_CreateFQDN (EncodeSubdomain p) domain hdom]
  simp only
  by_cases hp : p = []
  · subst hp
    rw [if_pos (show EncodeSubdomain ([] : List Nat) = [] from rfl)]
  · rw [if_neg (EncodeSubdomain_ne_nil p hp)]
    rw [decode_encode_subdomain p hbytes]

theorem parse_create_response (q : Msg) (p : List Nat) (hq : q.question ≠ []) :
    ∃ m, CreateResponse q p = some m ∧ ParseResponseData m = Except.ok p := by
  by_cases hp : p = []
  · subst hp
    refine ⟨{ setReply q with rcode := RcodeNameError }, ?_, ?_⟩
    · unfold CreateResponse
      rw [if_pos rfl]
    · unfold ParseResponseData
      rw [if_pos rfl]
  · cases hql : q.question with
    | nil => exact absurd hql hq
    | cons qh qt =>
      have hflat : (chunkList 255 p).flatten = p := chunkList_join 255 (by norm_num) p
      unfold CreateResponse
      rw [if_neg hp, hql]
      simp only
      cases hopt : isEdns0 q with
      | none =>
        refine ⟨_, rfl, ?_⟩
        unfold ParseResponseData
        rw [if_neg (by simp [setReply, RcodeNameError, RcodeSuccess])]
        rw [if_neg (by simp [setReply, RcodeSuccess])]
        simp only [setReply, List.nil_append]
        simp [collectTXT, hflat]
      | some o =>
        refine ⟨_, rfl, ?_⟩
        unfold ParseResponseData
        rw [if_neg (by simp [setReply, RcodeNameError, RcodeSuccess])]
        rw [if_neg (by simp [setReply, RcodeSuccess])]
        simp only [setReply, List.nil_append]
        simp [collectTXT, hflat]

theorem tdiv_eight_mono (a b : Int) (h : a ≤ b) : Int.tdiv a 8 ≤ Int.tdiv b 8 := by
  rcases le_or_lt 0 a with ha | ha
  · rw [Int.tdiv_eq_ediv ha (by omega), Int.tdiv_eq_ediv (le_trans ha h) (by omega)]
    exact Int.ediv_le_ediv (by omega) h
  · rcases le_or_lt 0 b with hb | hb
    · have h1 : Int.tdiv a 8 ≤ 0 := by
        have e1 : Int.tdiv (-a) 8 = (-a) / 8 := Int.tdiv_eq_ediv (by omega) (by omega)
        have e2 : 0 ≤ (-a) / 8 := Int.ediv_nonneg (by omega) (by omega)
        have e3 : Int.tdiv (-a) 8 = -(Int.tdiv a 8) := Int.neg_tdiv a 8
        omega
      have h2 : 0 ≤ Int.tdiv b 8 := by
        rw [Int.tdiv_eq_ediv hb (by omega)]
        exact Int.ediv_nonneg hb (by omega)
      omega
    · have e1 : Int.tdiv (-a) 8 = (-a) / 8 := Int.tdiv_eq_ediv (by omega) (by omega)
      have e2 : Int.tdiv (-b) 8 = (-b) / 8 := Int.tdiv_eq_ediv (by omega) (by omega)
      have n1 : Int.tdiv (-a) 8 = -(Int.tdiv a 8) := Int.neg_tdiv a 8
      have n2 : Int.tdiv (-b) 8 = -(Int.tdiv b 8) := Int.neg_tdiv b 8
      have hm : (-b) / 8 ≤ (-a) / 8 := Int.ediv_le_ediv (by omega) (by omega)
      omega

/-! ### Concrete data for witnesses and scenarios. -/

/-- The 600-byte payload of the TXT-splitting scenario. -/
def c3payload : List Nat := List.replicate 600 120

/-- The configured tunnel domain, the default of the client and server CLIs. -/
def tunnelDomain : List Char := "tunnel.example.com".toList

/-- A DNS message that is simultaneously a parseable response (one TXT answer)
and a parseable query (one TXT question) carrying the payload `[1, 2, 3]`. -/
def c9msg : Msg :=
  { rcode := RcodeSuccess
    response := false
    recursionDesired := true
    question := [⟨CreateFQDN (EncodeSubdomain [1, 2, 3]) tunnelDomain, TypeTXT, ClassINET⟩]
    answer := [RR.txt tunnelDomain DefaultTTL ClassINET [[1, 2, 3]]]
    extra := [] }

/-- An `Unpack` model that deserializes every byte chunk to `c9msg`. -/
def c9unpack : List Nat → Option Msg := fun _ => some c9msg

/-- An `Unpack` model under which no byte chunk deserializes. -/
def rejectUnpack : List Nat → Option Msg := fun _ => none

/-- A response message carrying the `ServerFailure` code. -/
def servFailMsg : Msg :=
  { rcode := RcodeServerFailure
    response := true
    recursionDesired := false
    question := []
    answer := []
    extra := [] }

/-- A query message with an empty question section. -/
def emptyQuestionQuery : Msg :=
  { rcode := RcodeSuccess
    response := false
    recursionDesired := false
    question := []
    answer := []
    extra := [] }

instance {ε α : Type} [DecidableEq ε] [DecidableEq α] : DecidableEq (Except ε α) :=
  fun a b =>
    match a, b with
    | Except.error e1, Except.error e2 =>
      if h : e1 = e2 then isTrue (by rw [h])
      else isFalse (fun hc => h (Except.error.inj hc))
    | Except.error _, Except.ok _ => isFalse (fun hc => Except.noConfusion hc)
    | Except.ok _, Except.error _ => isFalse (fun hc => Except.noConfusion hc)
    | Except.ok a1, Except.ok a2 =>
      if h : a1 = a2 then isTrue (by rw [h])
      else isFalse (fun hc => h (Except.ok.inj hc))

/-! ### The claims. -/

/-- C1: for every byte sequence `p`, `DecodeSubdomain (EncodeSubdomain p)`
returns exactly `p` with no error; moreover the empty payload encodes to the
empty string and the empty string decodes to the empty payload. -/
theorem C1_subdomain_roundtrip (p : List Nat) (hbytes : ∀ b ∈ p, b < 256) :
    DecodeSubdomain (EncodeSubdomain p) = Except.ok p ∧
    EncodeSubdomain [] = [] ∧
    DecodeSubdomain [] = Except.ok [] :=
  ⟨decode_encode_subdomain p hbytes, rfl, rfl⟩

theorem C1_subdomain_roundtrip_witness :
    DecodeSubdomain (EncodeSubdomain [104, 105, 33]) = Except.ok [104, 105, 33] ∧
    EncodeSubdomain [] = [] ∧
    DecodeSubdomain [] = Except.ok [] :=
  C1_subdomain_roundtrip [104, 105, 33] (by decide)

/-- C2: for every byte sequence `p` and every valid domain name (a configured
tunnel domain carries no trailing dot), parsing the query built for `p` under
that domain returns exactly `p`; for the empty payload the question name is
just the domain (with the closing root dot `CreateFQDN` appends). -/
theorem C2_query_roundtrip (p : List Nat) (domain : List Char)
    (hbytes : ∀ b ∈ p, b < 256) (hdom : hasSuffix domain ['.'] = false) :
    ParseQueryData (CreateQuery p domain) domain = Except.ok p ∧
    CreateFQDN (EncodeSubdomain []) domain = domain ++ ['.'] :=
  ⟨parse_create_query p domain hbytes hdom, rfl⟩

theorem C2_query_roundtrip_witness :
    ParseQueryData (CreateQuery [2, 3, 255] tunnelDomain) tunnelDomain =
      Except.ok [2, 3, 255] ∧
    CreateFQDN (EncodeSubdomain []) tunnelDomain = tunnelDomain ++ ['.'] :=
  C2_query_roundtrip [2, 3, 255] tunnelDomain (by decide) (by decide)

set_option maxRecDepth 20000 in
/-- C3: `ParseResponseData (CreateResponse q p)` returns exactly `p` for every
payload (for any query with a question to reply to); the empty payload yields
an NXDOMAIN-coded message with no answers; and the 600-byte payload splits into
exactly three TXT strings of lengths 255, 255 and 90 whose in-order
concatenation reconstructs it. -/
theorem C3_response_roundtrip :
    (∀ (q : Msg) (p : List Nat), q.question ≠ [] →
      ∃ m, CreateResponse q p = some m ∧ ParseResponseData m = Except.ok p) ∧
    (∀ q : Msg, CreateResponse q [] = some { setReply q with rcode := RcodeNameError } ∧
      ({ setReply q with rcode := RcodeNameError } : Msg).answer = []) ∧
    ((chunkList 255 c3payload).map List.length = [255, 255, 90] ∧
      (chunkList 255 c3payload).flatten = c3payload ∧
      ∃ m, CreateResponse (serverDummyQuery tunnelDomain) c3payload = some m ∧
        ParseResponseData m = Except.ok c3payload) := by
  refine ⟨fun q p hq => parse_create_response q p hq, ?_, ?_, ?_, ?_⟩
  · intro q
    constructor
    · unfold CreateResponse
      rw [if_pos rfl]
    · rfl
  · decide
  · exact chunkList_join 255 (by norm_num) c3payload
  · exact parse_create_response (serverDummyQuery tunnelDomain) c3payload (by simp [serverDummyQuery, setQuestion])

theorem C3_response_roundtrip_witness :
    ∃ m, CreateResponse (serverDummyQuery tunnelDomain) [9, 9] = some m ∧
      ParseResponseData m = Except.ok [9, 9] :=
  C3_response_roundtrip.1 (serverDummyQuery tunnelDomain) [9, 9] (by decide)

/-- C4 (behaviour at the failing input of the accumulation claim): each stream
adapter read consumes exactly one substrate chunk whatever it holds — the
adapter state after a read is the untouched tail of the substrate, so bytes are
never accumulated across substrate reads — and when that single chunk does not
deserialize as a DNS message the read fails immediately with a parse error
rather than reading further or reporting a frame-size error. -/
theorem C4_single_substrate_read (unpack : List Nat → Option Msg)
    (domain : List Char) (plen : Nat) (chunks : List (List Nat))
    (c : List Nat) (rest : List (List Nat)) (hu : unpack (c.take 4096) = none) :
    (dnsStreamRead unpack plen chunks).2 = chunks.tail ∧
    (serverDNSStreamRead unpack domain plen chunks).2 = chunks.tail ∧
    (dnsStreamRead unpack plen (c :: rest)).1 =
      Except.error "failed to parse DNS response" ∧
    (serverDNSStreamRead unpack domain plen (c :: rest)).1 =
      Except.error "failed to parse DNS query" := by
  refine ⟨?_, ?_, ?_, ?_⟩
  · cases chunks with
    | nil => rfl
    | cons c0 rest0 => rfl
  · cases chunks with
    | nil => rfl
    | cons c0 rest0 => rfl
  · simp only [dnsStreamRead, dnsStreamParse, hu]
  · simp only [serverDNSStreamRead, serverDNSStreamParse, hu]

theorem C4_single_substrate_read_witness :
    (dnsStreamRead rejectUnpack 16 [[0], [1]]).2 = [[1]] ∧
    (serverDNSStreamRead rejectUnpack tunnelDomain 16 [[0], [1]]).2 = [[1]] ∧
    (dnsStreamRead rejectUnpack 16 [[0], [1]]).1 =
      Except.error "failed to parse DNS response" ∧
    (serverDNSStreamRead rejectUnpack tunnelDomain 16 [[0], [1]]).1 =
      Except.error "failed to parse DNS query" :=
  C4_single_substrate_read rejectUnpack tunnelDomain 16 [[0], [1]] [0] [[1]] rfl

/-- C5: `CalculateMaxPayloadSize` is monotonically non-increasing in the
domain-name length, and its value at the configured domain's length 18 is
non-negative (it is 145). -/
theorem C5_max_payload_size (d1 d2 : Int) (h : d1 ≤ d2) :
    CalculateMaxPayloadSize d2 ≤ CalculateMaxPayloadSize d1 ∧
    0 ≤ CalculateMaxPayloadSize 18 := by
  constructor
  · unfold CalculateMaxPayloadSize
    simp only
    apply tdiv_eight_mono
    have hM : ((MaxDomainLength : Nat) : Int) = 253 := by norm_num [MaxDomainLength]
    rw [hM]
    omega
  · decide

theorem C5_max_payload_size_witness :
    CalculateMaxPayloadSize 100 ≤ CalculateMaxPayloadSize 18 ∧
    0 ≤ CalculateMaxPayloadSize 18 :=
  C5_max_payload_size 18 100 (by norm_num)

/-- C6: `EncodeSubdomain p` is the dot-join of its label list, and every label
has length at least 1 and at most 63. -/
theorem C6_label_lengths (p : List Nat) :
    EncodeSubdomain p = joinDots (subdomainLabels p) ∧
    ∀ l ∈ subdomainLabels p, 1 ≤ l.length ∧ l.length ≤ 63 := by
  constructor
  · unfold EncodeSubdomain subdomainLabels
    by_cases hp : p = [] <;> simp [hp, joinDots]
  · intro l hl
    unfold subdomainLabels at hl
    by_cases hp : p = []
    · rw [if_pos hp] at hl
      simp at hl
    · rw [if_neg hp] at hl
      have hlab := chunkList_mem_length_le MaxLabelLength (by decide) _ l hl
      constructor
      · have : l ≠ [] := hlab.2
        cases l with
        | nil => exact absurd rfl this
        | cons x t => simp
      · exact hlab.1

theorem C6_label_lengths_witness :
    EncodeSubdomain [1] = joinDots (subdomainLabels [1]) ∧
    ∀ l ∈ subdomainLabels [1], 1 ≤ l.length ∧ l.length ≤ 63 :=
  C6_label_lengths [1]

/-- C7: a response whose code is neither success nor NXDOMAIN (for example
`ServerFailure`) makes `ParseResponseData` fail with an error naming the code
and never produces a silently empty payload; NXDOMAIN alone maps to the empty
payload with no error. -/
theorem C7_response_error_codes (msg : Msg) (h0 : msg.rcode ≠ RcodeSuccess) :
    (msg.rcode ≠ RcodeNameError →
      ParseResponseData msg =
        Except.error (("DNS response error: ".toList ++ rcodeToString msg.rcode).asString) ∧
      ∀ d, ParseResponseData msg ≠ Except.ok d) ∧
    (msg.rcode = RcodeNameError → ParseResponseData msg = Except.ok []) := by
  constructor
  · intro h3
    unfold ParseResponseData
    rw [if_neg h3, if_pos h0]
    exact ⟨rfl, fun d hcon => Except.noConfusion hcon⟩
  · intro h3
    unfold ParseResponseData
    rw [if_pos h3]

theorem C7_response_error_codes_witness :
    ParseResponseData servFailMsg = Except.error "DNS response error: SERVFAIL" ∧
    ∀ d, ParseResponseData servFailMsg ≠ Except.ok d := by
  have h := (C7_response_error_codes servFailMsg (by decide)).1 (by decide)
  refine ⟨?_, h.2⟩
  rw [h.1]
  rfl

/-- C8: `BiDirectionalCopy` returns nil when both copy directions end
gracefully (nil or end-of-input); when exactly one direction delivers a
non-end-of-input error, that error is returned; and it returns only once both
directions have delivered their result. -/
theorem C8_bidirectional_copy (e1 e2 : Option IOErrKind) :
    (gracefulCopyResult e1 → gracefulCopyResult e2 → BiDirectionalCopy e1 e2 = none) ∧
    (¬ gracefulCopyResult e1 → gracefulCopyResult e2 → BiDirectionalCopy e1 e2 = e1) ∧
    (gracefulCopyResult e1 → ¬ gracefulCopyResult e2 → BiDirectionalCopy e1 e2 = e2) ∧
    (∀ delivered : List (Option IOErrKind), delivered.length < 2 →
      biDirectionalCopyAwait delivered = none) := by
  refine ⟨?_, ?_, ?_, ?_⟩
  · intro h1 h2
    rcases h1 with h1 | h1 <;> rcases h2 with h2 | h2 <;> subst h1 <;> subst h2 <;> rfl
  · intro h1 _
    rcases e1 with _ | ek
    · exact absurd (Or.inl rfl) h1
    · rcases ek with _ | s
      · exact absurd (Or.inr rfl) h1
      · rfl
  · intro h1 h2
    rcases e2 with _ | ek
    · exact absurd (Or.inl rfl) h2
    · rcases ek with _ | s
      · exact absurd (Or.inr rfl) h2
      · rcases h1 with h1 | h1 <;> subst h1 <;> rfl
  · intro delivered hlen
    cases delivered with
    | nil => rfl
    | cons e1 t =>
      cases t with
      | nil => rfl
      | cons e2 t2 => simp at hlen; omega

theorem C8_bidirectional_copy_witness :
    BiDirectionalCopy (some IOErrKind.eof) none = none ∧
    BiDirectionalCopy (some (IOErrKind.other "reset")) (some IOErrKind.eof) =
      some (IOErrKind.other "reset") ∧
    BiDirectionalCopy none (some (IOErrKind.other "reset")) =
      some (IOErrKind.other "reset") ∧
    biDirectionalCopyAwait [some IOErrKind.eof] = none := by
  refine ⟨?_, ?_, ?_, ?_⟩
  · exact (C8_bidirectional_copy (some IOErrKind.eof) none).1 (by decide) (by decide)
  · exact (C8_bidirectional_copy (some (IOErrKind.other "reset")) (some IOErrKind.eof)).2.1
      (by decide) (by decide)
  · exact (C8_bidirectional_copy none (some (IOErrKind.other "reset"))).2.2.1
      (by decide) (by decide)
  · exact (C8_bidirectional_copy none none).2.2.2 [some IOErrKind.eof] (by decide)

/-- C9: when the decoded payload is longer than the caller's buffer (both
adapter variants), the read returns the first `plen` payload bytes and the
count `plen` with no error, and the adapter state moves to exactly the
remaining substrate chunks — the cut-off bytes survive nowhere, so no later
read can deliver them. -/
theorem C9_read_truncates (unpack : List Nat → Option Msg) (domain : List Char)
    (plen : Nat) (c : List Nat) (rest : List (List Nat)) (m : Msg)
    (data : List Nat) (hu : unpack (c.take 4096) = some m) :
    (ParseResponseData m = Except.ok data → plen < data.length →
      dnsStreamRead unpack plen (c :: rest) = (Except.ok (data.take plen, plen), rest)) ∧
    (ParseQueryData m domain = Except.ok data → plen < data.length →
      serverDNSStreamRead unpack domain plen (c :: rest) =
        (Except.ok (data.take plen, plen), rest)) := by
  constructor
  · intro hparse hlen
    simp only [dnsStreamRead, dnsStreamParse, hu, hparse]
    rw [min_eq_left (Nat.le_of_lt hlen)]
  · intro hparse hlen
    simp only [serverDNSStreamRead, serverDNSStreamParse, hu, hparse]
    rw [min_eq_left (Nat.le_of_lt hlen)]

theorem C9_read_truncates_witness :
    dnsStreamRead c9unpack 2 [[0]] = (Except.ok ([1, 2], 2), []) ∧
    serverDNSStreamRead c9unpack tunnelDomain 2 [[0]] =
      (Except.ok ([1, 2], 2), []) := by
  have h := C9_read_truncates c9unpack tunnelDomain 2 [0] [] c9msg [1, 2, 3] rfl
  exact ⟨h.1 (by decide) (by decide), h.2 (by decide) (by decide)⟩

/-- C10: `CreateResponse` with a non-empty payload reads the query's first
question, so a query with an empty question section is outside its domain
(the Go code indexes out of range, modelled as `none`); the precondition holds
at the repository's only call site, `serverDNSStream.Write`, whose dummy query
always has exactly one question, making `CreateResponse` total there. -/
theorem C10_create_response_question (q : Msg) (p : List Nat) (domain : List Char)
    (hp : p ≠ []) (hq : q.question = []) :
    CreateResponse q p = none ∧
    (serverDummyQuery domain).question.length = 1 ∧
    ∀ d : List Nat, ∃ m, CreateResponse (serverDummyQuery domain) d = some m := by
  refine ⟨?_, rfl, ?_⟩
  · unfold CreateResponse
    simp only [hq]
    rw [if_neg hp]
  · intro d
    cases d with
    | nil => exact ⟨_, rfl⟩
    | cons x xs => exact ⟨_, rfl⟩

theorem C10_create_response_question_witness :
    CreateResponse emptyQuestionQuery [7] = none ∧
    (serverDummyQuery tunnelDomain).question.length = 1 ∧
    ∀ d : List Nat, ∃ m, CreateResponse (serverDummyQuery tunnelDomain) d = some m :=
  C10_create_response_question emptyQuestionQuery [7] tunnelDomain (by decide) rfl

end Slipstream
